import Mathlib

/-
Verification of the NeoBASIC tokeniser/detokeniser (basictool.py).

Shallow embedding of the codec logic of src/basictool/basictool.py:
the base-64 integer codec, the BCD fraction codec, the identifier store,
the token table, the line tokeniser, the program builder pipeline and the
decoder fragments that the claims refer to.  Bytes are modelled as Nat
(every value the source stores in its byte lists is < 256 by construction
of the operations), lines and names as List Char.
-/

set_option maxRecDepth 100000

namespace Basictool

/-! ### Number codec -/

/-- Tokeniser.renderConstant (basictool.py lines 455-458): base-64 rendering of
an unsigned integer.  If n >= 64 the high digits are emitted first by
recursion on n >> 6, then the byte 0x40 | (n & 0x3F) is appended. -/
def renderConstant (n : Nat) : List Nat :=
  if 64 ≤ n then
    renderConstant (n >>> 6) ++ [0x40 ||| (n &&& 0x3F)]
  else
    [0x40 ||| (n &&& 0x3F)]
  termination_by n
  decreasing_by
    simp only [Nat.shiftRight_eq_div_pow]
    exact Nat.div_lt_self (by omega) (by norm_num)

/-- ProgramLister.listOneElement integer branch (basictool.py lines 112-117):
consume consecutive bytes lying in [0x40, 0x80), accumulating
v = (v << 6) + byte - 0x40; the first byte outside the range stops the loop. -/
def decodeInteger : List Nat → Nat → Nat
  | [], v => v
  | b :: t, v =>
      if 0x40 ≤ b ∧ b < 0x80 then decodeInteger t ((v <<< 6) + b - 0x40) else v

theorem renderConstant_digit (n : Nat) : 0x40 ||| (n &&& 0x3F) = 64 + n % 64 := by
  have h1 : n &&& 0x3F = n % 64 := Nat.and_pow_two_sub_one_eq_mod n 6
  rw [h1]
  have h2 : n % 64 < 64 := Nat.mod_lt _ (by norm_num)
  interval_cases h : n % 64 <;> rfl

theorem renderConstant_of_lt {n : Nat} (h : n < 64) :
    renderConstant n = [64 + n] := by
  rw [renderConstant, if_neg (by omega : ¬ 64 ≤ n), renderConstant_digit,
    Nat.mod_eq_of_lt h]

theorem renderConstant_of_ge {n : Nat} (h : 64 ≤ n) :
    renderConstant n = renderConstant (n / 64) ++ [64 + n % 64] := by
  rw [renderConstant, if_pos h, renderConstant_digit]
  have hs : n >>> 6 = n / 64 := by
    simp [Nat.shiftRight_eq_div_pow]
  rw [hs]

theorem renderConstant_ne_nil (n : Nat) : renderConstant n ≠ [] := by
  by_cases h : 64 ≤ n
  · rw [renderConstant_of_ge h]; simp
  · rw [renderConstant_of_lt (by omega)]; simp

theorem renderConstant_mem_range (n : Nat) :
    ∀ b ∈ renderConstant n, 0x40 ≤ b ∧ b < 0x80 := by
  induction n using Nat.strong_induction_on with
  | _ n ih =>
    by_cases h : 64 ≤ n
    · rw [renderConstant_of_ge h]
      intro b hb
      rcases List.mem_append.mp hb with h1 | h1
      · exact ih (n / 64) (Nat.div_lt_self (by omega) (by norm_num)) b h1
      · have h2 : n % 64 < 64 := Nat.mod_lt _ (by norm_num)
        simp only [List.mem_singleton] at h1
        omega
    · rw [renderConstant_of_lt (by omega)]
      intro b hb
      simp only [List.mem_singleton] at hb
      omega

theorem decodeInteger_append {xs : List Nat} (ys : List Nat)
    (h : ∀ b ∈ xs, 0x40 ≤ b ∧ b < 0x80) (v : Nat) :
    decodeInteger (xs ++ ys) v = decodeInteger ys (decodeInteger xs v) := by
  induction xs generalizing v with
  | nil => rfl
  | cons b t ih =>
    have hb := h b (by simp)
    have ht : ∀ x ∈ t, 0x40 ≤ x ∧ x < 0x80 := fun x hx => h x (by simp [hx])
    simp only [List.cons_append, decodeInteger, if_pos hb]
    exact ih ht _

theorem decodeInteger_renderConstant (n : Nat) :
    ∀ v, ∃ k, decodeInteger (renderConstant n) v = v * 64 ^ k + n := by
  induction n using Nat.strong_induction_on with
  | _ n ih =>
    intro v
    by_cases h : 64 ≤ n
    · rw [renderConstant_of_ge h,
        decodeInteger_append _ (fun b hb => renderConstant_mem_range _ b hb)]
      obtain ⟨k, hk⟩ := ih (n / 64) (Nat.div_lt_self (by omega) (by norm_num)) v
      refine ⟨k + 1, ?_⟩
      have h2 : n % 64 < 64 := Nat.mod_lt _ (by norm_num)
      simp only [hk, decodeInteger, if_pos (by omega : 0x40 ≤ 64 + n % 64 ∧ 64 + n % 64 < 0x80)]
      have h3 : (v * 64 ^ k + n / 64) <<< 6 = (v * 64 ^ k + n / 64) * 64 := by
        simp [Nat.shiftLeft_eq]
      rw [h3]
      have h4 : v * 64 ^ (k + 1) = v * 64 ^ k * 64 := by ring
      have h5 : 64 * (n / 64) + n % 64 = n := Nat.div_add_mod n 64
      omega
    · rw [renderConstant_of_lt (by omega)]
      refine ⟨1, ?_⟩
      simp only [decodeInteger, if_pos (by omega : 0x40 ≤ 64 + n ∧ 64 + n < 0x80)]
      have h3 : v <<< 6 = v * 64 := by simp [Nat.shiftLeft_eq]
      omega

/-- C1: for every n < 2^31, the integer encoder renderConstant produces a
non-empty byte list with every byte in [0x40, 0x80), and the decoder loop
decodeInteger (accumulating from 0) recovers n from that list. -/
theorem c1_integer_roundtrip (n : Nat) (h : n < 2 ^ 31) :
    renderConstant n ≠ [] ∧ (∀ b ∈ renderConstant n, 0x40 ≤ b ∧ b < 0x80) ∧
      decodeInteger (renderConstant n) 0 = n := by
  refine ⟨renderConstant_ne_nil n, renderConstant_mem_range n, ?_⟩
  obtain ⟨k, hk⟩ := decodeInteger_renderConstant n 0
  simpa using hk

/-- Witness for C1 at the concrete input n = 100 (the spec's own example:
renderConstant 100 = [0x41, 0x64]). -/
theorem c1_integer_roundtrip_witness :
    (100 : Nat) < 2 ^ 31 ∧
      (renderConstant 100 ≠ [] ∧ (∀ b ∈ renderConstant 100, 0x40 ≤ b ∧ b < 0x80) ∧
        decodeInteger (renderConstant 100) 0 = 100) :=
  ⟨by norm_num, c1_integer_roundtrip 100 (by norm_num)⟩

/-! ### Fraction codec -/

/-- Pairwise packing loop of Tokeniser.tokeniseOne (basictool.py lines 383-385):
pack a digit list two per byte as high*16 + low.  The source's while loop reads
digits[0] and digits[1]; it is only ever run on an even-length list (the list
is padded just before), so the one-element case, which would fault in the
source, is mapped to []. -/
def packFraction : List Nat → List Nat
  | [] => []
  | [_] => []
  | a :: b :: t => (a * 16 + b) :: packFraction t

/-- Padding step of Tokeniser.tokeniseOne (lines 379-380): the sentinel digit
0xF is always appended, and a second 0xF is appended when the resulting count
is odd. -/
def paddedFrac (digits : List Nat) : List Nat :=
  let d1 := digits ++ [0xF]
  if d1.length % 2 = 0 then d1 else d1 ++ [0xF]

/-- Fraction encoder of Tokeniser.tokeniseOne (basictool.py lines 379-385):
emit the packed byte count (len >> 1 of the padded digit list) followed by the
packed bytes.  The source emits the !!DEC token id just before this sequence;
that byte belongs to the token stream, not to the fraction payload. -/
def encodeFraction (digits : List Nat) : List Nat :=
  ((paddedFrac digits).length >>> 1) :: packFraction (paddedFrac digits)

namespace ProgramLister

/-- ProgramLister.decode (basictool.py lines 156-157): one packed byte to its
digit values, high nibble then low nibble; a nibble of 15 contributes
nothing.  The source renders each value with str; digits are kept as their
numeric values here. -/
def decode (d : Nat) : List Nat :=
  (if d &&& 240 == 240 then [] else [d >>> 4]) ++
    (if d &&& 15 == 15 then [] else [d &&& 15])

end ProgramLister

/-- Fraction decoder assembled from ProgramLister.listOneElement lines 108-110:
from the byte list [length, packed...], decode exactly length bytes with
ProgramLister.decode and concatenate the results. -/
def decodeFraction : List Nat → List Nat
  | [] => []
  | len :: rest => ((rest.take len).map ProgramLister.decode).flatten

theorem packFraction_length (s : List Nat) :
    (packFraction s).length = s.length / 2 := by
  match s with
  | [] => simp [packFraction]
  | [a] => simp [packFraction]
  | a :: b :: t =>
    simp only [packFraction, List.length_cons, packFraction_length t]
    omega

theorem decode_packed_all :
    ∀ a, a < 16 → ∀ b, b < 16 → ProgramLister.decode (a * 16 + b) =
      (if a = 15 then [] else [a]) ++ (if b = 15 then [] else [b]) := by
  decide

theorem decode_packed {a b : Nat} (ha : a < 16) (hb : b < 16) :
    ProgramLister.decode (a * 16 + b) =
      (if a = 15 then [] else [a]) ++ (if b = 15 then [] else [b]) :=
  decode_packed_all a ha b hb

theorem paddedFrac_cons_cons (a b : Nat) (t : List Nat) :
    paddedFrac (a :: b :: t) = a :: b :: paddedFrac t := by
  simp only [paddedFrac, List.cons_append, List.length_cons]
  have hmod : ((t ++ [0xF]).length + 1 + 1) % 2 = (t ++ [0xF]).length % 2 := by
    omega
  rw [hmod]
  by_cases hc : (t ++ [0xF]).length % 2 = 0
  · rw [if_pos hc, if_pos hc]
  · rw [if_neg hc, if_neg hc]

theorem fracRoundAux (s : List Nat) (h : ∀ d ∈ s, d ≤ 9) :
    ((packFraction (paddedFrac s)).map ProgramLister.decode).flatten = s := by
  match s with
  | [] =>
    decide
  | [a] =>
    have ha : a ≤ 9 := h a (by simp)
    have h1 : paddedFrac [a] = [a, 0xF] := by
      simp [paddedFrac]
    have h2 : packFraction [a, 0xF] = [a * 16 + 0xF] := by
      simp [packFraction]
    rw [h1, h2, List.map_singleton, decode_packed (by omega) (by norm_num)]
    simp [if_neg (show ¬ a = 15 by omega)]
  | a :: b :: t =>
    have ha : a ≤ 9 := h a (by simp)
    have hb : b ≤ 9 := h b (by simp)
    have ht : ∀ d ∈ t, d ≤ 9 := fun d hd => h d (by simp [hd])
    rw [paddedFrac_cons_cons]
    have h2 : packFraction (a :: b :: paddedFrac t) =
        (a * 16 + b) :: packFraction (paddedFrac t) := by
      simp [packFraction]
    rw [h2, List.map_cons, List.flatten_cons,
      decode_packed (by omega) (by omega), fracRoundAux t ht]
    simp [if_neg (show ¬ a = 15 by omega), if_neg (show ¬ b = 15 by omega)]

/-- Digit character to its value, as the source's int() does on one digit. -/
def charDigit (c : Char) : Nat := c.toNat - 48

/-- Digit value to its character, as the source's str() renders one digit. -/
def digitChar (d : Nat) : Char := Char.ofNat (48 + d)

theorem decodeFraction_cons (len : Nat) (rest : List Nat) :
    decodeFraction (len :: rest) = ((rest.take len).map ProgramLister.decode).flatten := rfl

theorem paddedFrac_length (s : List Nat) :
    (paddedFrac s).length = 2 * (s.length / 2) + 2 := by
  simp only [paddedFrac]
  split <;> (simp_all only [List.length_append, List.length_cons, List.length_nil]; omega)

theorem packFraction_take_eq (d : List Nat) :
    (packFraction (paddedFrac d)).take ((paddedFrac d).length >>> 1) =
      packFraction (paddedFrac d) := by
  have h1 : (paddedFrac d).length >>> 1 = (packFraction (paddedFrac d)).length := by
    rw [packFraction_length, Nat.shiftRight_one]
  rw [h1, List.take_length]

/-- C7: for every digit string of length 1 to 8 over the characters 0-9,
decoding the fraction encoding reproduces the string exactly; the decoder
walks each packed byte high nibble then low nibble, and a nibble of 15
contributes no character. -/
theorem c7_fraction_roundtrip (s : List Char) (h1 : 1 ≤ s.length)
    (h2 : s.length ≤ 8) (h3 : ∀ c ∈ s, '0' ≤ c ∧ c ≤ '9') :
    (decodeFraction (encodeFraction (s.map charDigit))).map digitChar = s := by
  have hd : ∀ x ∈ s.map charDigit, x ≤ 9 := by
    intro x hx
    obtain ⟨c, hc, rfl⟩ := List.mem_map.mp hx
    have h0 : 48 ≤ c.toNat := (h3 c hc).1
    have h9 : c.toNat ≤ 57 := (h3 c hc).2
    unfold charDigit
    omega
  have e1 : decodeFraction (encodeFraction (s.map charDigit)) =
      ((packFraction (paddedFrac (s.map charDigit))).map ProgramLister.decode).flatten := by
    unfold encodeFraction
    rw [decodeFraction_cons, packFraction_take_eq]
  rw [e1, fracRoundAux _ hd, List.map_map]
  have hid : ∀ c ∈ s, (digitChar ∘ charDigit) c = c := by
    intro c hc
    have h0 : 48 ≤ c.toNat := (h3 c hc).1
    show digitChar (charDigit c) = c
    unfold digitChar charDigit
    have h4 : 48 + (c.toNat - 48) = c.toNat := by omega
    rw [h4, Char.ofNat_toNat]
  rw [List.map_congr_left hid]
  simp

/-- Witness for C7 at the concrete digit string "12". -/
theorem c7_fraction_roundtrip_witness :
    1 ≤ (['1', '2'] : List Char).length ∧ (['1', '2'] : List Char).length ≤ 8 ∧
      (∀ c ∈ (['1', '2'] : List Char), '0' ≤ c ∧ c ≤ '9') ∧
      (decodeFraction (encodeFraction ((['1', '2'] : List Char).map charDigit))).map digitChar
        = ['1', '2'] :=
  ⟨by decide, by decide, by decide,
    c7_fraction_roundtrip ['1', '2'] (by decide) (by decide) (by decide)⟩

/-- C4 counterexample: encodeFraction always appends the sentinel digit 15
(and a second one when the count is then odd), so the even-length digit string
"12" (digit values [1, 2]) encodes to [2, 0x12, 0xFF]: the output does contain
a sentinel nibble, its length byte is 2 rather than half the digit count, and
it differs from the [1, 0x12] the claim states. -/
theorem c4_counterexample :
    encodeFraction [1, 2] = [2, 0x12, 0xFF] ∧ encodeFraction [1, 2] ≠ [1, 0x12] := by
  decide

theorem packFraction_append_pair (s : List Nat) (a b : Nat) (h : s.length % 2 = 0) :
    packFraction (s ++ [a, b]) = packFraction s ++ [a * 16 + b] := by
  match s with
  | [] => simp [packFraction]
  | [x] => simp at h
  | x :: y :: t =>
    have ht : t.length % 2 = 0 := by
      simp only [List.length_cons] at h
      omega
    have e1 : (x :: y :: t) ++ [a, b] = x :: y :: (t ++ [a, b]) := rfl
    rw [e1]
    simp [packFraction, packFraction_append_pair t a b ht]

/-- C4 amended: encodeFraction maps each digit to a value 0..9, always appends
the sentinel digit 15, appends a second sentinel when the count is then odd,
packs pairs as high*16+low and emits [length][packed]; consequently the
length byte equals digitCount/2 + 1, and for every even-length digit string
the output ends in the full sentinel byte 0xFF
(e.g. encodeFraction "12" = [2, 0x12, 0xFF]). -/
theorem c4_amended (s : List Nat) (h : ∀ d ∈ s, d ≤ 9) :
    (encodeFraction s).head? = some (s.length / 2 + 1) ∧
      (s.length % 2 = 0 → (encodeFraction s).getLast? = some 0xFF) := by
  constructor
  · have hlen : (paddedFrac s).length >>> 1 = s.length / 2 + 1 := by
      rw [Nat.shiftRight_one, paddedFrac_length]
      omega
    unfold encodeFraction
    rw [hlen, List.head?_cons]
  · intro heven
    have hpad : paddedFrac s = s ++ [0xF, 0xF] := by
      simp only [paddedFrac]
      have hl : (s ++ [0xF]).length = s.length + 1 := by simp
      rw [hl, if_neg (by omega : ¬ (s.length + 1) % 2 = 0)]
      simp
    unfold encodeFraction
    rw [hpad, packFraction_append_pair s 0xF 0xF heven]
    have e1 : ((s ++ [0xF, 0xF]).length >>> 1) :: (packFraction s ++ [0xF * 16 + 0xF]) =
        (((s ++ [0xF, 0xF]).length >>> 1) :: packFraction s) ++ [0xF * 16 + 0xF] := rfl
    rw [e1, List.getLast?_concat]

/-- Witness for the amended C4 at the concrete digit string "12". -/
theorem c4_amended_witness :
    (∀ d ∈ ([1, 2] : List Nat), d ≤ 9) ∧
      ((encodeFraction [1, 2]).head? = some (([1, 2] : List Nat).length / 2 + 1) ∧
        (([1, 2] : List Nat).length % 2 = 0 → (encodeFraction [1, 2]).getLast? = some 0xFF)) :=
  ⟨by decide, c4_amended [1, 2] (by decide)⟩

/-! ### Identifier store -/

/-- Dictionary lookup for the Python dicts modelled as association lists;
bindings are prepended on assignment, so the first match is the most recent
binding, as in a Python dict where the latest assignment to a key wins. -/
def lookupKey {α : Type} (m : List (List Char × α)) (k : List Char) : Option α :=
  (m.find? (fun p => p.1 == k)).map (fun p => p.2)

/-- Python str.upper() on an identifier name (ASCII). -/
def upperName (l : List Char) : List Char := l.map Char.toUpper

/-- Terminator marking of IdentifierStore.add line 332 (b[-1] |= 0x80): set the
high bit of the last byte.  The source faults on an empty name (b[-1] of an
empty list); the empty case is mapped to []. -/
def markLast : List Nat → List Nat
  | [] => []
  | [a] => [a ||| 0x80]
  | a :: t => a :: markLast t

/-- Increment of the page-count byte, IdentifierStore.add line 336
(self.store[0] += 1). -/
def bumpHead : List Nat → List Nat
  | [] => []
  | h :: t => (h + 1) :: t

/-- Control byte of IdentifierStore.add lines 324-329, computed from the
(already uppercased) name: 0x80 if the name ends in dollar or dollar-paren
(string type), plus 0x10 if it ends in a paren (array type). -/
def ctrlByte (name : List Char) : Nat :=
  (if [ '$' ].isSuffixOf name || [ '$', '(' ].isSuffixOf name then 0x80 else 0x00) +
    (if [ '(' ].isSuffixOf name then 0x10 else 0)

/-- IdentifierStore (basictool.py lines 303-338): the byte region being built
and the name-to-pointer dictionary (keys are uppercased names). -/
structure IdentifierStore where
  store : List Nat
  identifiers : List (List Char × Nat)
  deriving DecidableEq

/-- IdentifierStore.__init__ (lines 304-306): one page, no identifiers. -/
def IdentifierStore.init : IdentifierStore := ⟨[0x1], []⟩

/-- IdentifierStore.add (basictool.py lines 319-338): uppercase the name,
record the pointer (offset of the record plus 1), append the record
[length+6][0,0,0,0][ctrl][name bytes, last one marked], and bump the
page-count byte when bit 0x80 of the offset is clear before the append and
set after it.  The source also asserts the name is not already present;
callers in the source check get first, and the claims only add fresh names,
so the assertion is not modelled. -/
def IdentifierStore.add (st : IdentifierStore) (name0 : List Char) : IdentifierStore :=
  let name := upperName name0
  let bAddress := st.store.length
  let identifiers := (name, st.store.length + 1) :: st.identifiers
  let record := (name.length + 6) :: 0 :: 0 :: 0 :: 0 :: ctrlByte name ::
    markLast (name.map Char.toNat)
  let newStore := st.store ++ record
  let aAddress := newStore.length
  ⟨if bAddress &&& 0x80 = 0 ∧ aAddress &&& 0x80 ≠ 0 then bumpHead newStore else newStore,
    identifiers⟩

/-- IdentifierStore.get (lines 315-317): look the uppercased name up. -/
def IdentifierStore.get (st : IdentifierStore) (name : List Char) : Option Nat :=
  lookupKey st.identifiers (upperName name)

/-- IdentifierStore.render (lines 308-313): the store padded with zeros out to
pageCount * 256 bytes. -/
def IdentifierStore.render (st : IdentifierStore) : List Nat :=
  st.store ++ List.replicate (st.store.headD 0 * 256 - st.store.length) 0

theorem markLast_length (l : List Nat) : (markLast l).length = l.length := by
  match l with
  | [] => rfl
  | [a] => rfl
  | a :: b :: t => simp [markLast, markLast_length (b :: t)]

/-- C2 counterexample: an append whose pre-offset has bit 0x80 set and whose
post-offset has it clear does not increment the page count.  Adding a
121-character name moves the offset from 1 to 0x80 (bumping the page count to
2 on the way); adding a 122-character name then moves the offset from 0x80 to
0x100.  Bit 0x80 of the pre-offset (0x80) and of the post-offset (0x100)
differ, yet the page count stays 2, contradicting the claim that every such
append increments it. -/
theorem c2_counterexample :
    (IdentifierStore.init.add (List.replicate 121 'A')).store.length = 0x80 ∧
      ((IdentifierStore.init.add (List.replicate 121 'A')).add
        (List.replicate 122 'B')).store.length = 0x100 ∧
      (IdentifierStore.init.add (List.replicate 121 'A')).store.length &&& 0x80 ≠ 0 ∧
      ((IdentifierStore.init.add (List.replicate 121 'A')).add
        (List.replicate 122 'B')).store.length &&& 0x80 = 0 ∧
      (IdentifierStore.init.add (List.replicate 121 'A')).store.headD 0 = 2 ∧
      ((IdentifierStore.init.add (List.replicate 121 'A')).add
        (List.replicate 122 'B')).store.headD 0 = 2 := by
  decide

/-- C2 amended: the page count starts at 1 and is incremented by add exactly
when bit 0x80 of the cumulative offset is clear before the append and set
after it; a crossing that leaves bit 0x80 clear (such as 0x80 to 0x100) does
not increment it. -/
theorem c2_amended (st : IdentifierStore) (name : List Char) (hne : st.store ≠ []) :
    (st.add name).store.headD 0 =
      if st.store.length &&& 0x80 = 0 ∧
          (st.store.length + (name.length + 6)) &&& 0x80 ≠ 0 then
        st.store.headD 0 + 1
      else
        st.store.headD 0 := by
  match st with
  | ⟨[], ids⟩ => exact absurd rfl hne
  | ⟨h0 :: t0, ids⟩ =>
    simp only [IdentifierStore.add]
    have hlen : ((h0 :: t0) ++ ((upperName name).length + 6) :: 0 :: 0 :: 0 :: 0 ::
        ctrlByte (upperName name) :: markLast ((upperName name).map Char.toNat)).length =
        (h0 :: t0).length + (name.length + 6) := by
      simp [markLast_length, upperName]
      omega
    rw [hlen]
    by_cases hc : (h0 :: t0).length &&& 0x80 = 0 ∧
        ((h0 :: t0).length + (name.length + 6)) &&& 0x80 ≠ 0
    · rw [if_pos hc, if_pos hc]
      simp [bumpHead]
    · rw [if_neg hc, if_neg hc]
      simp

/-- Witness for the amended C2: adding the one-character name A to a fresh
store does not cross a boundary, and the page count stays 1. -/
theorem c2_amended_witness :
    (IdentifierStore.init.store ≠ []) ∧
      ((IdentifierStore.init.add ("A".toList)).store.headD 0 =
        if IdentifierStore.init.store.length &&& 0x80 = 0 ∧
            (IdentifierStore.init.store.length + (("A".toList).length + 6)) &&& 0x80 ≠ 0 then
          IdentifierStore.init.store.headD 0 + 1
        else
          IdentifierStore.init.store.headD 0) :=
  ⟨by decide, c2_amended IdentifierStore.init ("A".toList) (by decide)⟩

/-- Name read-back loop of ProgramLister.listOneElement (basictool.py lines
97-101), applied to the byte suffix the loop starts at: take bytes while they
are below 0x80, then the first byte with the high bit set ends the name and
contributes its low 7 bits; none models the loop running off the end. -/
def readMarkedName : List Nat → Option (List Nat)
  | [] => none
  | b :: t =>
      if b < 0x80 then (readMarkedName t).map (fun l => b :: l)
      else some [b &&& 0x7F]

theorem markLast_facts :
    ∀ x, x < 0x80 → ¬ (x ||| 0x80) < 0x80 ∧ (x ||| 0x80) &&& 0x7F = x := by
  decide

theorem readMarkedName_markLast (l : List Nat) (hne : l ≠ [])
    (hlt : ∀ x ∈ l, x < 0x80) : readMarkedName (markLast l) = some l := by
  match l with
  | [a] =>
    have ha : a < 0x80 := hlt a (by simp)
    have hf := markLast_facts a ha
    simp [markLast, readMarkedName, if_neg hf.1, hf.2]
  | a :: b :: t =>
    have ha : a < 0x80 := hlt a (by simp)
    have hrec := readMarkedName_markLast (b :: t) (by simp)
      (fun x hx => hlt x (by simp [hx]))
    simp [markLast, readMarkedName, if_pos ha, hrec]

theorem getElem?_bumpHead (l : List Nat) (n : Nat) (h : 1 ≤ n) :
    (bumpHead l)[n]? = l[n]? := by
  match l, n with
  | [], n => rfl
  | h0 :: t, n + 1 => simp [bumpHead]

theorem drop_bumpHead (l : List Nat) (n : Nat) (h : 1 ≤ n) :
    (bumpHead l).drop n = l.drop n := by
  match l, n with
  | [], n => rfl
  | h0 :: t, n + 1 => simp [bumpHead]

/-- C3 counterexample: after adding the name A to a fresh store, the pointer
recorded for A is 2, and the byte at offset pointer + 5 = 7 is 0xC1 - the
terminator-marked name byte A | 0x80 - while the record's control byte
(value 0 for a plain variable) sits at offset pointer + 4 = 6.  So adding the
fixed header skip of 5 to the pointer reaches the first name byte, not the
control byte, refuting the claim's placement of the control byte. -/
theorem c3_counterexample :
    (IdentifierStore.init.add ("A".toList)).get ("A".toList) = some 2 ∧
      ((IdentifierStore.init.add ("A".toList)).store)[2 + 5]? = some 0xC1 ∧
      ((IdentifierStore.init.add ("A".toList)).store)[2 + 4]? = some 0 ∧
      ctrlByte (upperName ("A".toList)) = 0 ∧ (0xC1 : Nat) ≠ 0 := by
  decide

/-- C3 amended: the pointer returned for an appended record is the record's
start offset plus 1 (one past the length byte); the record's control byte
lies at pointer + 4, and adding the fixed header skip of 5 bytes to the
pointer yields the offset of the first name byte, from which the decoder's
read loop (readMarkedName, the same + 1 pointer bias and + 5 header skip)
reconstructs the uppercased name bytes up to the terminator bit. -/
theorem c3_amended (st : IdentifierStore) (name : List Char) (hne : name ≠ [])
    (hascii : ∀ c ∈ name, (Char.toUpper c).toNat < 0x80) :
    (st.add name).get name = some (st.store.length + 1) ∧
      ((st.add name).store)[st.store.length + 1 + 4]? =
        some (ctrlByte (upperName name)) ∧
      readMarkedName ((st.add name).store.drop (st.store.length + 1 + 5)) =
        some ((upperName name).map Char.toNat) := by
  refine ⟨?_, ?_, ?_⟩
  · simp [IdentifierStore.add, IdentifierStore.get, lookupKey, List.find?]
  · simp only [IdentifierStore.add]
    rw [show st.store.length + 1 + 4 = st.store.length + 5 from by omega]
    have hidx : 1 ≤ st.store.length + 5 := by omega
    rw [apply_ite (fun l => l[st.store.length + 5]?) _ _ _,
      getElem?_bumpHead _ _ hidx, ite_self]
    rw [List.getElem?_append_right (by omega : st.store.length ≤ st.store.length + 5)]
    simp
  · simp only [IdentifierStore.add]
    have hidx : 1 ≤ st.store.length + 1 + 5 := by omega
    rw [apply_ite (fun l : List Nat => l.drop (st.store.length + 1 + 5)) _ _ _,
      drop_bumpHead _ _ hidx, ite_self]
    rw [show st.store.length + 1 + 5 = st.store.length + 6 from by omega,
      ← List.drop_drop, List.drop_left]
    show readMarkedName (markLast ((upperName name).map Char.toNat)) = _
    refine readMarkedName_markLast _ ?_ ?_
    · intro hmap
      exact hne (by simpa [upperName] using hmap)
    · intro x hx
      obtain ⟨c1, hc1, rfl⟩ := List.mem_map.mp hx
      obtain ⟨c0, hc0, rfl⟩ := List.mem_map.mp hc1
      exact hascii c0 hc0

/-- Witness for the amended C3 at the name A added to a fresh store. -/
theorem c3_amended_witness :
    ("A".toList ≠ []) ∧ (∀ c ∈ "A".toList, (Char.toUpper c).toNat < 0x80) ∧
      ((IdentifierStore.init.add ("A".toList)).get ("A".toList) =
        some (IdentifierStore.init.store.length + 1) ∧
      ((IdentifierStore.init.add ("A".toList)).store)[IdentifierStore.init.store.length + 1 + 4]? =
        some (ctrlByte (upperName ("A".toList))) ∧
      readMarkedName
          ((IdentifierStore.init.add ("A".toList)).store.drop
            (IdentifierStore.init.store.length + 1 + 5)) =
        some ((upperName ("A".toList)).map Char.toNat)) :=
  ⟨by decide, by decide,
    c3_amended IdentifierStore.init ("A".toList) (by decide) (by decide)⟩

/-! ### Decoder text assembly (ProgramLister.append / ProgramLister.type) -/

namespace ProgramLister

/-- ProgramLister.type (basictool.py lines 150-154): classify a character;
a space stays itself, an identifier-class character (digit, letter or
underscore after uppercasing) maps to I, anything else to N. -/
def type (c0 : Char) : Char :=
  let c := c0.toUpper
  if c ≠ ' ' then
    if (('0' ≤ c ∧ c ≤ '9') ∨ ('A' ≤ c ∧ c ≤ 'Z') ∨ c = '_') then 'I' else 'N'
  else c

/-- ProgramLister.append (basictool.py lines 145-148): join the next rendered
fragment to the accumulated text, inserting one space exactly when the text
is non-empty and the classes of its last character and of the fragment's
first character are equal.  The source indexes s[0], faulting on an empty
fragment; every fragment the decoder passes is non-empty, and the empty case
is modelled as plain concatenation. -/
def append (text s : List Char) : List Char :=
  if text = [] then text ++ s
  else
    match text.getLast?, s.head? with
    | some a, some b => if type a = type b then text ++ ' ' :: s else text ++ s
    | _, _ => text ++ s

end ProgramLister

/-- C5 counterexample: the fragments + and - are both outside the
identifier class (ProgramLister.type maps each to N), yet append separates
them with a space, because the source inserts a space whenever the two
classes are merely equal; the claim's only-if direction (space only between
two identifier-class characters) is therefore false. -/
theorem c5_counterexample :
    ProgramLister.type '+' = 'N' ∧ ProgramLister.type '-' = 'N' ∧
      ProgramLister.type '+' ≠ 'I' ∧
      ProgramLister.append ['+'] ['-'] = ['+', ' ', '-'] := by
  decide

/-- C5 amended: for adjacent rendered fragments, one separating space is
inserted exactly when the accumulated text is non-empty and the class of its
last character equals the class of the fragment's first character, where the
classes are identifier (letter, digit or underscore, case-insensitively),
space, and other; in particular two non-identifier characters of equal class
are also separated by a space. -/
theorem c5_amended (text s : List Char) (a b : Char) (ha : text.getLast? = some a)
    (hb : s.head? = some b) :
    ProgramLister.append text s =
      (if ProgramLister.type a = ProgramLister.type b then text ++ ' ' :: s
        else text ++ s) := by
  have hne : text ≠ [] := by
    intro h
    rw [h] at ha
    simp at ha
  unfold ProgramLister.append
  rw [if_neg hne, ha, hb]

/-- Witness for the amended C5 at the fragments + and -. -/
theorem c5_amended_witness :
    (['+'] : List Char).getLast? = some '+' ∧ (['-'] : List Char).head? = some '-' ∧
      ProgramLister.append ['+'] ['-'] =
        (if ProgramLister.type '+' = ProgramLister.type '-' then ['+'] ++ ' ' :: ['-']
          else ['+'] ++ ['-']) :=
  ⟨by decide, by decide, c5_amended ['+'] ['-'] '+' '-' (by decide) (by decide)⟩

/-! ### Decoder program walk (ProgramLister.list_code) -/

/-- Outcome of the decoder's top-level line walk. -/
inductive WalkResult where
  | done : WalkResult
  | outOfBounds : WalkResult
  | fuelOut : WalkResult
  deriving DecidableEq

/-- Line-record walk of ProgramLister.list_code (basictool.py lines 79-81),
with each byte access bounds-checked: the source indexes self.bin[code]
unconditionally, so an index at or past the end of the image - which raises
an uncaught IndexError in Python - is modelled as the outOfBounds outcome.
The per-line renderer (listLine) only accumulates text and does not steer the
walk, so it is not modelled; the failing inputs in the claims fault in the
walk itself, before listLine would run.  Fuel bounds the iteration count. -/
def listCodeLoop (bin : List Nat) : Nat → Nat → WalkResult
  | 0, _ => .fuelOut
  | fuel + 1, code =>
      match bin[code]? with
      | none => .outOfBounds
      | some 0 => .done
      | some len => listCodeLoop bin fuel (code + len)

/-- ProgramLister.list_code (basictool.py lines 77-81): the walk starts at
offset bin[0] << 8, one page past the start of the identifier region. -/
def list_code (bin : List Nat) : WalkResult :=
  match bin[0]? with
  | none => .outOfBounds
  | some b => listCodeLoop bin (bin.length + 1) (b <<< 8)

/-- C6: decoding a truncated image does not fail with a decode error - the
walk immediately attempts an out-of-bounds read.  For the one-byte image
[0x01] the first loop read is at offset 0x100 of a 1-byte buffer; for a
256-byte image holding only the identifier region (program code and final
0x00 terminator missing) the first loop read is at offset 0x100 of a 256-byte
buffer.  In the source both raise an uncaught IndexError from the unguarded
self.bin[code]; neither produces a distinct decode error. -/
theorem c6_truncated_image_out_of_bounds :
    list_code [0x01] = WalkResult.outOfBounds ∧
      list_code (0x01 :: List.replicate 255 0) = WalkResult.outOfBounds ∧
      (0x01 : Nat) <<< 8 = 0x100 ∧ (0x01 :: List.replicate 255 0).length = 0x100 := by
  decide

/-! ### Token table (TokenSet.create) -/

/-- Python str.strip(): drop leading and trailing whitespace. -/
def stripChars (l : List Char) : List Char :=
  ((l.dropWhile Char.isWhitespace).reverse.dropWhile Char.isWhitespace).reverse

/-- Name normalisation of TokenSet.add, TokenSet.addToken and Token.__init__
(basictool.py lines 163-169, 206, 214-215): the block text is uppercased and
split, each token text is lowercased, and a modifier after a colon is
stripped unless the token is the colon itself.  Uppercasing followed by
lowercasing leaves these ASCII spellings unchanged, so only the lowercasing
is applied. -/
def mkName (s : List Char) : List Char :=
  let t := s.map Char.toLower
  if t ≠ [':'] ∧ ':' ∈ t then t.takeWhile (fun c => c ≠ ':') else t

/-- State of TokenSet.create (lines 203-212): the running id counter and the
id-to-name list in insertion order.  Padding slots carry the empty name. -/
structure TSState where
  nextToken : Nat
  table : List (Nat × List Char)

/-- TokenSet.add (basictool.py lines 203-212): insert the block's tokens at
consecutive ids from start (from the running counter when start is none),
then pad with empty-named fillers while the counter is below
start + padSize.  The source's pad loop is rendered as a range map producing
the same filler entries. -/
def TSState.add (st : TSState) (start? : Option Nat) (toks : List String)
    (pad? : Option Nat) : TSState :=
  let start := start?.getD st.nextToken
  let st1 := toks.foldl
    (fun a s => ⟨a.nextToken + 1, a.table ++ [(a.nextToken, mkName s.toList)]⟩)
    ⟨start, st.table⟩
  match pad? with
  | none => st1
  | some p =>
      ⟨max st1.nextToken (start + p),
        st1.table ++ (List.range (start + p - st1.nextToken)).map
          (fun i => (st1.nextToken + i, ([] : List Char)))⟩

/-- Binary operator tokens at 0x20 (basictool.py lines 230-234). -/
def binaryTokens : List String :=
  ["+:3", "-:3", "*:4", "/:4", ">>:4", "<<:4", "%:4", "\\:4",
   "&:1", "|:1", "^:1", ">:2", ">=:2", "<:2", "<=:2", "<>:2", "=:2"]

/-- Unary tokens at 0x80, padded to 48 (basictool.py lines 238-243). -/
def unaryTokens : List String :=
  ["!!STR", "$", "(", "RAND(", "RND(", "JOYPAD(", "INT(", "TIME(", "EVENT(",
   "INKEY$(", "ASC(", "CHR$(", "POINT(", "LEN(", "ABS(", "SGN(", "HIT(", "SPOINT(",
   "MID$(", "LEFT$(", "RIGHT$(", "TRUE", "FALSE", "INSTR(", "MOUSE(", "!!UN6", "!!UN7",
   "KEY(", "PEEK(", "DEEK(", "ALLOC(", "MAX(", "MIN("]

/-- Structure tokens, padded to 16 (basictool.py lines 247-250). -/
def structureTokens : List String :=
  ["WHILE:+", "WEND:-", "IF:+", "ENDIF:-", "DO:+", "LOOP:-", "REPEAT:+", "UNTIL:-",
   "PROC:+", "ENDPROC:-", "FOR:+", "NEXT:-", "CASE:+", "ENDCASE:-", "!!UN1:+", "THEN:-"]

/-- Major keyword tokens (basictool.py lines 254-260). -/
def majorTokens : List String :=
  ["!!END", "!!SH1", "!!SH2", "!!DEC", "TO", "LET", "PRINT", "INPUT",
   "SYS", "EXIT", ",", ";", ":", String.mk ['\''], ")", "READ",
   "DATA", "ELSE", "WHEN", "DOWNTO", "POKE", "DOKE", "LOCAL", "CALL",
   "#", ".", "LINE", "RECT", "MOVE", "PLOT", "ELLIPSE", "TEXT",
   "IMAGE", "SPRITE", "FROM", "[", "]", "@", "TILEDRAW", "REF"]

/-- Minor keyword tokens at 0x180 (basictool.py lines 264-274). -/
def minorTokens : List String :=
  ["CLEAR", "NEW", "RUN", "STOP", "END", "ASSERT", "LIST", "SAVE",
   "LOAD", "CAT", "GOSUB", "GOTO", "RETURN", "RESTORE", "DIM", "FKEY",
   "CLS", "INK", "FRAME", "SOLID", "BY", "WHO", "PALETTE", "DRAW",
   "HIDE", "FLIP", "SOUND", "SFX", "ANCHOR", "GLOAD", "DEFCHR", "LEFT",
   "RIGHT", "FORWARD", "TURTLE", "CLOSE", "TILEMAP", "PENUP", "PENDOWN", "FAST",
   "HOME", "LOCALE", "CURSOR", "RENUMBER", "DELETE", "EDIT", "MON", "OLD",
   "ON", "ERROR", "PIN", "OUTPUT", "WAIT", "IWRITE", "ANALOG", "ISEND",
   "SSEND", "IRECEIVE", "SRECEIVE", "ITRANSMIT", "STRANSMIT", "OPEN", "LIBRARY",
   "USEND", "URECEIVE", "UTRANSMIT", "UCONFIG", "MOS", "MOUSE", "SHOW", "NOISE"]

/-- Assembler mnemonic tokens at 0x280, padded to 0x50 (lines 278-285). -/
def asmTokens : List String :=
  ["ADC", "AND", "ASL", "BCC", "BCS", "BEQ", "BIT", "BMI", "BNE", "BPL", "BRA",
   "BRK", "BVC", "BVS", "CLC", "CLD", "CLI", "CLV", "CMP", "CPX", "CPY", "DEC",
   "DEX", "DEY", "EOR", "INC", "INX", "INY", "JMP", "JSR", "LDA", "LDX", "LDY",
   "LSR", "NOP", "ORA", "PHA", "PHP", "PHX", "PHY", "PLA", "PLP", "PLX", "PLY",
   "ROL", "ROR", "RTI", "RTS", "SBC", "SEC", "SED", "SEI", "STA", "STX", "STY",
   "STZ", "TAX", "TAY", "TRB", "TSB", "TSX", "TXA", "TXS", "TYA"]

/-- Additional unary function tokens at 0x2D0 (basictool.py lines 289-297). -/
def extraUnaryTokens : List String :=
  ["ATAN2(", "EOF(", "!!UU2", "!!UU3", "!!UU4", "!!UU5", "!!UU6", "!!UU7",
   "!!UU8", "!!UU9", "!!UU10", "!!UU11", "!!UU12", "!!UU13", "!!UU14", "!!UU15",
   "SIN(", "COS(", "TAN(", "ATAN(", "LOG(", "EXP(", "VAL(", "STR$(",
   "ISVAL(", "SQR(", "PAGE", "SPRITEX(", "SPRITEY(", "NOTES(", "HIMEM", "VBLANKS(",
   "ERR", "ERL", "PIN(", "IREAD(", "ANALOG(", "JOYCOUNT(", "UPPER$(",
   "IDEVICE(", "SPC(", "TAB(", "UHASDATA(", "MOS(", "HAVEMOUSE(", "LOWER$(", "POW(",
   "EXISTS("]

/-- TokenSet.create (basictool.py lines 223-297): the six blocks inserted in
order.  The initial counter is unused because the first block carries an
explicit start. -/
def tokenSetTable : List (Nat × List Char) :=
  (((((((TSState.mk 0 []).add (some 0x20) binaryTokens none).add
    (some 0x80) unaryTokens (some 48)).add
    none structureTokens (some 16)).add
    none majorTokens none).add
    (some 0x180) minorTokens none).add
    (some 0x280) asmTokens (some 0x50)).add
    (some 0x2D0) extraUnaryTokens none |>.table

/-- TokenSet.getByName (basictool.py lines 188-190): strip and lowercase the
queried name, then look it up; the id of the first entry with that name is
returned (stored names are unique apart from the fillers' empty name, which
no code path queries). -/
def getByName (name : List Char) : Option Nat :=
  (tokenSetTable.find? (fun p => p.2 == (stripChars name).map Char.toLower)).map
    (fun p => p.1)

/-- Tokeniser.getTokenID (basictool.py lines 452-453): the id of a known
token name.  The source would fail with an attribute error on a missing
name; getTokenID is only applied to names present in the table, where the
default is never taken. -/
def getTokenID (name : List Char) : Nat := (getByName name).getD 0

/-! ### Tokeniser (Tokeniser.tokenise / Tokeniser.tokeniseOne) -/

/-- Value of a decimal digit string, as Python int() computes it. -/
def digitsVal (l : List Char) : Nat := l.foldl (fun a c => a * 10 + (c.toNat - 48)) 0

/-- Value of one hex digit, as Python int(s, 16) treats it. -/
def hexDigitVal (c : Char) : Nat :=
  if c.isDigit then c.toNat - 48
  else if 'A' ≤ c ∧ c ≤ 'F' then c.toNat - 55
  else c.toNat - 87

/-- Hex digit class [0-9A-Fa-f] of the regex on basictool.py line 392. -/
def isHexChar (c : Char) : Bool :=
  c.isDigit || (decide ('A' ≤ c) && decide (c ≤ 'F')) ||
    (decide ('a' ≤ c) && decide (c ≤ 'f'))

/-- Value of a hex digit string, as Python int(s, 16) computes it. -/
def hexVal (l : List Char) : Nat := l.foldl (fun a c => a * 16 + hexDigitVal c) 0

/-- Identifier class [A-Za-z0-9_.] of the regex on basictool.py line 424. -/
def identRegexChar (c : Char) : Bool :=
  c.isAlpha || c.isDigit || c == '_' || c == '.'

/-- Tokeniser.tokeniseOne (basictool.py lines 369-450): consume one token
from the front of the line, returning the updated identifier store, the
emitted bytes and the remaining text; none models the source's fatal errors
(malformed hex literal, unterminated string, unmatched punctuation).  Each
branch mirrors one regex of the source: a maximal munch of the leading
character class followed by a whitespace skip. -/
def tokeniseOne (ist : IdentifierStore) (s : List Char) :
    Option (IdentifierStore × List Nat × List Char) :=
  match s with
  | [] => none
  | c :: t =>
    if c.isDigit then
      let ds := (c :: t).takeWhile Char.isDigit
      let rest := ((c :: t).dropWhile Char.isDigit).dropWhile Char.isWhitespace
      let intCode := renderConstant (digitsVal ds)
      match rest with
      | '.' :: r2 =>
          let fds := r2.takeWhile Char.isDigit
          if fds = [] then some (ist, intCode, rest)
          else
            let r3 := (r2.dropWhile Char.isDigit).dropWhile Char.isWhitespace
            some (ist, intCode ++ getTokenID ("!!dec".toList) ::
              encodeFraction (fds.map charDigit), r3)
      | _ => some (ist, intCode, rest)
    else if c = '$' then
      let hs := t.takeWhile isHexChar
      if hs = [] then none
      else
        let rest := (t.dropWhile isHexChar).dropWhile Char.isWhitespace
        some (ist, getTokenID ("$".toList) :: renderConstant (hexVal hs), rest)
    else if c = '"' then
      let content := t.takeWhile (fun x => x ≠ '"')
      match t.dropWhile (fun x => x ≠ '"') with
      | '"' :: r =>
          some (ist, getTokenID ("!!str".toList) :: content.length ::
            content.map Char.toNat, r.dropWhile Char.isWhitespace)
      | _ => none
    else if c = '\'' then
      let s2 := stripChars t
      if s2 = [] then some (ist, [getTokenID [ '\'' ]], [])
      else
        let s3 := s2.filter (fun x => x ≠ '"')
        some (ist, getTokenID [ '\'' ] :: getTokenID ("!!str".toList) ::
          s3.length :: s3.map Char.toNat, [])
    else if 'A' ≤ c.toUpper ∧ c.toUpper ≤ 'Z' then
      let run := (c :: t).takeWhile identRegexChar
      let rest1 := (c :: t).dropWhile identRegexChar
      let m := match rest1 with
        | '$' :: r => (run ++ ['$'], r)
        | _ => (run, rest1)
      let m2 := match m.2 with
        | '(' :: r => (m.1 ++ ['('], r)
        | _ => m
      let rest := m2.2.dropWhile Char.isWhitespace
      match getByName m2.1 with
      | some id => some (ist,
          (if 0x100 ≤ id then
            [getTokenID (("!!sh".toList) ++ (Nat.repr (id >>> 8)).toList), id &&& 0xFF]
          else [id &&& 0xFF]), rest)
      | none =>
          match ist.get m2.1 with
          | some id => some (ist, [id >>> 8, id &&& 0xFF], rest)
          | none =>
              match (ist.add m2.1).get m2.1 with
              | some id => some (ist.add m2.1, [id >>> 8, id &&& 0xFF], rest)
              | none => none
    else
      match c :: t with
      | c1 :: c2 :: r =>
          match getByName [c1, c2] with
          | some id => some (ist, [id], r)
          | none =>
              match getByName [c1] with
              | some id => some (ist, [id], c2 :: r)
              | none => none
      | _ =>
          match getByName [c] with
          | some id => some (ist, [id], t)
          | none => none

/-- Loop of Tokeniser.tokenise (basictool.py lines 362-367): strip, then
consume tokens until the line is empty or starts with a double slash
comment; the remainder is stripped after every step.  Fuel bounds the
iteration count (each successful step consumes at least one character). -/
def tokeniseLoop : Nat → IdentifierStore → List Char → List Nat →
    Option (IdentifierStore × List Nat)
  | 0, _, _, _ => none
  | fuel + 1, ist, s, acc =>
      if s = [] ∨ s.take 2 = ['/', '/'] then some (ist, acc)
      else
        match tokeniseOne ist s with
        | none => none
        | some (ist2, code, rest) => tokeniseLoop fuel ist2 (stripChars rest) (acc ++ code)

/-- Tokeniser.tokenise (basictool.py lines 362-367). -/
def tokenise (ist : IdentifierStore) (s : List Char) :
    Option (IdentifierStore × List Nat) :=
  tokeniseLoop (s.length + 1) ist (stripChars s) []

/-- Identifier store pre-seeded by Program.__init__ (basictool.py lines
473-478) with the names A, O, P, X and Y. -/
def progInitStore : IdentifierStore :=
  ((((IdentifierStore.init.add ("A".toList)).add
    ("O".toList)).add ("P".toList)).add ("X".toList)).add ("Y".toList)

/-- C8: tokenising the line PRINT "HI" yields exactly the five bytes
[id(PRINT), id(!!STR), 2, H, I] and leaves the identifier store untouched;
id(!!STR) is 0x80 and id(PRINT) is 0xC6, the id assigned to PRINT by the
sequential construction of the token table, which is below 0x100, so no
shift-escape byte precedes it. -/
theorem c8_print_hi :
    getByName ("print".toList) = some 0xC6 ∧
      getByName ("!!str".toList) = some 0x80 ∧ (0xC6 : Nat) < 0x100 ∧
      tokenise progInitStore ("PRINT \"HI\"".toList) =
        some (progInitStore, [0xC6, 0x80, 2, 'H'.toNat, 'I'.toNat]) := by
  decide

/-! ### Program builder (Program) -/

/-- Program state (basictool.py lines 469-482): pending line number and step,
accumulated line records, the one identifier store, the define dictionary and
the library-mode flag. -/
structure ProgState where
  nextLine : Nat
  lineStep : Nat
  code : List Nat
  store : IdentifierStore
  identifiers : List (List Char × List Char)
  libraryMode : Bool
  deriving DecidableEq

/-- Program.__init__ (basictool.py lines 469-482): line counter 100, step 10,
no code, the pre-seeded store, no defines, library mode off. -/
def Program.init : ProgState := ⟨100, 10, [], progInitStore, [], false⟩

/-- Program.addLine (basictool.py lines 529-543): skip blank text; otherwise
an explicit number replaces the counter, the line number is zero in library
mode, the text is tokenised, the record [0, lineNo low, lineNo high] ++ code
++ [!!END] gets its total length written into byte 0, the record is appended
and the counter advances by the step. -/
def addLine (p : ProgState) (number : Option Nat) (text : List Char) :
    Option ProgState :=
  if stripChars text = [] then some p
  else
    let p1 := match number with
      | some n => { p with nextLine := n }
      | none => p
    let lineNo := if p1.libraryMode then 0 else p1.nextLine
    match tokenise p1.store text with
    | none => none
    | some (st2, tcode) =>
        let line := 0 :: (lineNo &&& 0xFF) :: (lineNo >>> 8) ::
          (tcode ++ [getTokenID ("!!end".toList)])
        some { p1 with
          code := p1.code ++ line.set 0 line.length,
          store := st2,
          nextLine := p1.nextLine + p1.lineStep }

/-- Program.command (basictool.py lines 504-515): define adds a substitution
(key up to the first space of the stripped remainder, value the stripped
rest; with no space Python's find returns -1, making the key all but the
last character and the value the whole remainder), library and nolibrary
toggle the mode, anything else is the asserted fatal error (none). -/
def command (p : ProgState) (c : List Char) : Option ProgState :=
  if ("define".toList).isPrefixOf c then
    let c2 := stripChars (c.drop 6)
    match c2.findIdx? (fun x => x == ' ') with
    | some n => some { p with
        identifiers := (c2.take n, stripChars (c2.drop (n + 1))) :: p.identifiers }
    | none => some { p with
        identifiers := (c2.dropLast, stripChars c2) :: p.identifiers }
  else if c = "library".toList then some { p with libraryMode := true }
  else if c = "nolibrary".toList then
    some { p with libraryMode := false, nextLine := 1000 }
  else none

/-- Tail class of the captured identifier pattern [A-Za-z][A-Za-z0-9._]* of
Program.processIdentifiers (basictool.py line 521). -/
def identClassChar (c : Char) : Bool := c.isAlpha || c.isDigit || c == '.' || c == '_'

/-- The re.split of Program.processIdentifiers (line 521) with its captured
group: the result alternates separator pieces and identifier matches,
beginning and ending with a (possibly empty) separator, exactly as re.split
returns them. -/
def rsplit : List Char → List (List Char)
  | [] => [[]]
  | c :: t =>
      if c.isAlpha then
        [] :: (c :: t.takeWhile identClassChar) :: rsplit (t.dropWhile identClassChar)
      else
        match rsplit t with
        | [] => [[c]]
        | sep :: rest => (c :: sep) :: rest
  termination_by l => l.length
  decreasing_by
    · simp only [List.length_cons]
      have hd := (List.dropWhile_sublist (l := t) identClassChar).length_le
      omega
    · simp

/-- Program.processIdentifiers (basictool.py lines 520-525): every piece of
the split that equals a defined name - separator or match, quoted or not -
is replaced by its definition; the pieces are joined back together. -/
def processIdentifiers (m : List (List Char × List Char)) (s : List Char) :
    List Char :=
  ((rsplit s).map (fun chunk => (lookupKey m chunk).getD chunk)).flatten

/-- One iteration of Program.addFile (basictool.py lines 486-500): strip the
line; a leading hash dispatches to command (and suppresses the rest of the
line); otherwise the define substitution runs over the whole raw line, a
leading digit run becomes the explicit line number, and the remainder goes
to addLine. -/
def addFileLine (p : ProgState) (line : List Char) : Option ProgState :=
  match stripChars line with
  | '#' :: cr => command p cr
  | s0 =>
      let s2 := processIdentifiers p.identifiers (stripChars s0)
      match s2 with
      | [] => some p
      | c :: _ =>
          if c.isDigit then
            addLine p (some (digitsVal (s2.takeWhile Char.isDigit)))
              (s2.dropWhile Char.isDigit)
          else addLine p none s2

/-- Program.addFile (basictool.py lines 486-500) over a list of source
lines. -/
def addFileLines (lines : List (List Char)) (p : ProgState) : Option ProgState :=
  match lines with
  | [] => some p
  | l :: rest => (addFileLine p l).bind (addFileLines rest)

theorem add_store_drop_one (st : IdentifierStore) (n : List Char) :
    st.store.drop 1 <+: (st.add n).store.drop 1 := by
  simp only [IdentifierStore.add]
  rw [apply_ite (fun l : List Nat => l.drop 1) _ _ _,
    drop_bumpHead _ _ (by omega), ite_self]
  cases st.store with
  | nil => simp
  | cons h0 t0 =>
    simp only [List.cons_append, List.drop_one, List.tail_cons]
    exact List.prefix_append t0 _

theorem tokeniseOne_store_cases (ist : IdentifierStore) (s : List Char)
    (r : IdentifierStore × List Nat × List Char) (h : tokeniseOne ist s = some r) :
    r.1 = ist ∨ ∃ nm, r.1 = ist.add nm := by
  match s with
  | [] => exact Option.noConfusion h
  | c :: t =>
    simp only [tokeniseOne] at h
    repeat' split at h
    all_goals
      first
        | exact Option.noConfusion h
        | (injection h with h2
           rw [← h2]
           first
             | exact Or.inl rfl
             | exact Or.inr ⟨_, rfl⟩)

theorem tokeniseLoop_store_grows (fuel : Nat) :
    ∀ ist s acc ist2 code, tokeniseLoop fuel ist s acc = some (ist2, code) →
      ist.store.drop 1 <+: ist2.store.drop 1 := by
  induction fuel with
  | zero => exact fun ist s acc ist2 code h => Option.noConfusion h
  | succ f ih =>
    intro ist s acc ist2 code h
    simp only [tokeniseLoop] at h
    split at h
    · injection h with h2
      injection h2 with h3 h4
      rw [h3]
    · split at h
      · exact Option.noConfusion h
      · rename_i ist3 code3 rest3 heq
        have hstep := tokeniseOne_store_cases ist s (ist3, code3, rest3) heq
        have htail := ih ist3 (stripChars rest3) (acc ++ code3) ist2 code h
        rcases hstep with h1 | ⟨nm, h1⟩
        · rw [show ist3 = ist from h1] at htail
          exact htail
        · rw [show ist3 = ist.add nm from h1] at htail
          exact (add_store_drop_one ist nm).trans htail

theorem tokenise_store_grows (ist : IdentifierStore) (s : List Char)
    (ist2 : IdentifierStore) (code : List Nat)
    (h : tokenise ist s = some (ist2, code)) :
    ist.store.drop 1 <+: ist2.store.drop 1 :=
  tokeniseLoop_store_grows _ ist _ [] ist2 code h

theorem addLine_store_grows (p : ProgState) (number : Option Nat)
    (text : List Char) (p2 : ProgState) (h : addLine p number text = some p2) :
    p.store.store.drop 1 <+: p2.store.store.drop 1 := by
  simp only [addLine] at h
  split at h
  · injection h with h2
    rw [← h2]
  · split at h
    · exact Option.noConfusion h
    · rename_i st2 tcode heq
      injection h with h2
      rw [← h2]
      cases number with
      | none => exact tokenise_store_grows _ _ _ _ heq
      | some n => exact tokenise_store_grows _ _ _ _ heq

theorem command_store_eq (p : ProgState) (c : List Char) (p2 : ProgState)
    (h : command p c = some p2) : p2.store = p.store := by
  simp only [command] at h
  repeat' split at h
  all_goals
    first
      | exact Option.noConfusion h
      | (injection h with h2
         rw [← h2])

theorem addFileLine_store_grows (p : ProgState) (line : List Char)
    (p2 : ProgState) (h : addFileLine p line = some p2) :
    p.store.store.drop 1 <+: p2.store.store.drop 1 := by
  simp only [addFileLine] at h
  split at h
  · rename_i cr hcr
    rw [command_store_eq p cr p2 h]
  · split at h
    · injection h with h2
      rw [← h2]
    · split at h
      · exact addLine_store_grows _ _ _ _ h
      · exact addLine_store_grows _ _ _ _ h

theorem addFileLines_store_grows (lines : List (List Char)) :
    ∀ p p2, addFileLines lines p = some p2 →
      p.store.store.drop 1 <+: p2.store.store.drop 1 := by
  induction lines with
  | nil =>
    intro p p2 h
    injection h with h2
    rw [← h2]
  | cons l rest ih =>
    intro p p2 h
    have h2 : (addFileLine p l).bind (addFileLines rest) = some p2 := h
    match heq : addFileLine p l with
    | none =>
      rw [heq] at h2
      exact Option.noConfusion h2
    | some p1 =>
      rw [heq] at h2
      simp only [Option.some_bind] at h2
      exact (addFileLine_store_grows p l p1 heq).trans (ih p1 p2 h2)

theorem render_drop_one (st : IdentifierStore) :
    st.store.drop 1 <+: (st.render).drop 1 := by
  unfold IdentifierStore.render
  cases st.store with
  | nil => simp
  | cons h0 t0 =>
    simp only [List.cons_append, List.drop_one, List.tail_cons]
    exact List.prefix_append t0 _

/-- C9: the program builder pre-registers A, O, P, X and Y: the initial store
region is exactly the page byte followed by the five seven-byte records (A
receiving pointer value 2); for every source input accepted by the pipeline
the rendered identifier region still begins with those five records (the
page byte aside, which later additions may bump); and tokenising a line that
uses the variable A reuses the pre-seeded record - the store comes back
unchanged and the emitted pointer bytes are [0, 2]. -/
theorem c9_preseeded_identifiers :
    progInitStore.store =
      [1, 7, 0, 0, 0, 0, 0, 0xC1, 7, 0, 0, 0, 0, 0, 0xCF, 7, 0, 0, 0, 0, 0, 0xD0,
        7, 0, 0, 0, 0, 0, 0xD8, 7, 0, 0, 0, 0, 0, 0xD9] ∧
      progInitStore.get ("A".toList) = some 2 ∧
      (∀ lines p2, addFileLines lines Program.init = some p2 →
        progInitStore.store.drop 1 <+: (IdentifierStore.render p2.store).drop 1) ∧
      tokenise progInitStore ("A".toList) = some (progInitStore, [0, 2]) := by
  refine ⟨by decide, by decide, ?_, by decide⟩
  intro lines p2 h
  have h1 := addFileLines_store_grows lines Program.init p2 h
  exact h1.trans (render_drop_one p2.store)

/-- Witness for C9: the empty source input, on which the pipeline returns the
initial program state. -/
theorem c9_preseeded_identifiers_witness :
    addFileLines [] Program.init = some Program.init ∧
      progInitStore.store.drop 1 <+:
        (IdentifierStore.render Program.init.store).drop 1 :=
  ⟨rfl, c9_preseeded_identifiers.2.2.1 [] Program.init rfl⟩

/-! ### Helper lemmas for the define-substitution pipeline -/

theorem dropWhile_eq_self_of_head (l : List Char)
    (h : ∀ b, l.head? = some b → Char.isWhitespace b = false) :
    l.dropWhile Char.isWhitespace = l := by
  cases l with
  | nil => rfl
  | cons c t => exact List.dropWhile_cons_of_neg (by simp [h c rfl])

theorem stripChars_eq_self (l : List Char)
    (h1 : ∀ b, l.head? = some b → Char.isWhitespace b = false)
    (h2 : ∀ b, l.getLast? = some b → Char.isWhitespace b = false) :
    stripChars l = l := by
  unfold stripChars
  rw [dropWhile_eq_self_of_head l h1,
    dropWhile_eq_self_of_head l.reverse
      (fun b hb => h2 b (by rwa [List.head?_reverse] at hb)),
    List.reverse_reverse]

theorem takeWhile_append_cons (p : Char → Bool) (xs : List Char) (y : Char)
    (ys : List Char) (hxs : ∀ x ∈ xs, p x = true) (hy : p y = false) :
    (xs ++ y :: ys).takeWhile p = xs := by
  induction xs with
  | nil => simp [List.takeWhile_cons, hy]
  | cons a t ih =>
    have ha := hxs a (by simp)
    simp only [List.cons_append, List.takeWhile_cons, ha]
    simp [ih (fun x hx => hxs x (by simp [hx]))]

theorem dropWhile_append_cons (p : Char → Bool) (xs : List Char) (y : Char)
    (ys : List Char) (hxs : ∀ x ∈ xs, p x = true) (hy : p y = false) :
    (xs ++ y :: ys).dropWhile p = y :: ys := by
  induction xs with
  | nil => simp [List.dropWhile_cons, hy]
  | cons a t ih =>
    have ha := hxs a (by simp)
    simp only [List.cons_append, List.dropWhile_cons, ha]
    simp [ih (fun x hx => hxs x (by simp [hx]))]

theorem findIdx_append_cons (p : Char → Bool) (xs : List Char) (y : Char)
    (ys : List Char) (hxs : ∀ x ∈ xs, p x = false) (hy : p y = true) :
    (xs ++ y :: ys).findIdx? p = some xs.length := by
  induction xs with
  | nil => simp [List.findIdx?_cons, hy]
  | cons a t ih =>
    have ha := hxs a (by simp)
    simp only [List.cons_append, List.findIdx?_cons, ha]
    simp [ih (fun x hx => hxs x (by simp [hx]))]

theorem alpha_not_ws (c : Char) (h : c.isAlpha = true) : c.isWhitespace = false := by
  cases hw : c.isWhitespace
  · rfl
  · exfalso
    have h2 : ((c = ' ' ∨ c = '\t') ∨ c = '\r') ∨ c = '\n' := by
      simpa [Char.isWhitespace] using hw
    rcases h2 with ((rfl | rfl) | rfl) | rfl <;> exact absurd h (by decide)

theorem identClass_ne_space {c : Char} (h : identClassChar c = true) : c ≠ ' ' := by
  intro he
  rw [he] at h
  exact absurd h (by decide)

theorem alpha_ne_space {c : Char} (h : c.isAlpha = true) : c ≠ ' ' := by
  intro he
  rw [he] at h
  exact absurd h (by decide)

theorem rsplit_alpha (c : Char) (t : List Char) (h : c.isAlpha = true) :
    rsplit (c :: t) =
      [] :: (c :: t.takeWhile identClassChar) :: rsplit (t.dropWhile identClassChar) := by
  rw [rsplit]
  simp [h]

theorem rsplit_nonalpha (c : Char) (t : List Char) (h : c.isAlpha = false) :
    rsplit (c :: t) =
      match rsplit t with
      | [] => [[c]]
      | sep :: rest => (c :: sep) :: rest := by
  rw [rsplit]
  simp [h]

theorem rsplit_nil : rsplit [] = [[]] := by
  rw [rsplit]

/-- The re.split pieces of the line PRINT "N" for an identifier-shaped N:
empty separator, the PRINT match, the separator of a space and a quote, the
N match, and the closing-quote separator. -/
theorem rsplit_print_line (n0 : Char) (ntail : List Char)
    (h0 : n0.isAlpha = true) (ht : ∀ x ∈ ntail, identClassChar x = true) :
    rsplit ("PRINT \"".toList ++ (n0 :: ntail) ++ ['"']) =
      [[], "PRINT".toList, [' ', '"'], n0 :: ntail, ['"']] := by
  have e1 : "PRINT \"".toList ++ (n0 :: ntail) ++ ['"'] =
      'P' :: (['R', 'I', 'N', 'T'] ++
        (' ' :: ('"' :: (n0 :: (ntail ++ ['"']))))) := by
    simp
  rw [e1, rsplit_alpha 'P' _ (by decide),
    takeWhile_append_cons _ _ _ _ (by decide) (by decide),
    dropWhile_append_cons _ _ _ _ (by decide) (by decide),
    rsplit_nonalpha ' ' _ (by decide),
    rsplit_nonalpha '"' _ (by decide),
    rsplit_alpha n0 _ h0,
    takeWhile_append_cons _ _ _ _ ht (by decide),
    dropWhile_append_cons _ _ _ _ ht (by decide),
    rsplit_nonalpha '"' [] (by decide), rsplit_nil]
  simp

/-- Substitution on the line PRINT "N": the match piece N, although inside
the quoted string, is replaced by R; the other pieces match no defined
name. -/
theorem processIdentifiers_print_line (n0 : Char) (ntail R : List Char)
    (h0 : n0.isAlpha = true) (ht : ∀ x ∈ ntail, identClassChar x = true)
    (hNP : n0 :: ntail ≠ "PRINT".toList) :
    processIdentifiers [(n0 :: ntail, R)]
      ("PRINT \"".toList ++ (n0 :: ntail) ++ ['"']) =
      "PRINT \"".toList ++ R ++ ['"'] := by
  unfold processIdentifiers
  rw [rsplit_print_line n0 ntail h0 ht]
  have hb2 : (n0 == 'P' && ntail == ['R', 'I', 'N', 'T']) = false := by
    by_contra hx
    have hx2 : (n0 == 'P' && ntail == ['R', 'I', 'N', 'T']) = true := by
      simpa using hx
    simp only [Bool.and_eq_true, beq_iff_eq] at hx2
    exact hNP (by rw [hx2.1, hx2.2]; rfl)
  have hb3 : (n0 == ' ') = false :=
    beq_eq_false_iff_ne.mpr (alpha_ne_space h0)
  have hb5 : (n0 == '"') = false := by
    apply beq_eq_false_iff_ne.mpr
    intro he
    rw [he] at h0
    exact absurd h0 (by decide)
  simp [lookupKey, List.find?, hb2, hb3, hb5]

theorem tokeniseOne_print (R : List Char) :
    tokeniseOne progInitStore ("PRINT \"".toList ++ R ++ ['"']) =
      some (progInitStore, [0xC6], '"' :: (R ++ ['"'])) := by
  have e1 : "PRINT \"".toList ++ R ++ ['"'] =
      'P' :: 'R' :: 'I' :: 'N' :: 'T' :: ' ' :: '"' :: (R ++ ['"']) := by
    simp
  rw [e1]
  simp only [tokeniseOne]
  rw [if_neg (by decide), if_neg (by decide), if_neg (by decide),
    if_neg (by decide), if_pos (by decide)]
  have h1 : List.takeWhile identRegexChar
      ('P' :: 'R' :: 'I' :: 'N' :: 'T' :: ' ' :: '"' :: (R ++ ['"'])) =
      ['P', 'R', 'I', 'N', 'T'] := by
    rw [show ('P' :: 'R' :: 'I' :: 'N' :: 'T' :: ' ' :: '"' :: (R ++ ['"'])) =
      ['P', 'R', 'I', 'N', 'T'] ++ ' ' :: ('"' :: (R ++ ['"'])) from rfl]
    exact takeWhile_append_cons _ _ _ _ (by decide) (by decide)
  have h2 : List.dropWhile identRegexChar
      ('P' :: 'R' :: 'I' :: 'N' :: 'T' :: ' ' :: '"' :: (R ++ ['"'])) =
      ' ' :: ('"' :: (R ++ ['"'])) := by
    rw [show ('P' :: 'R' :: 'I' :: 'N' :: 'T' :: ' ' :: '"' :: (R ++ ['"'])) =
      ['P', 'R', 'I', 'N', 'T'] ++ ' ' :: ('"' :: (R ++ ['"'])) from rfl]
    exact dropWhile_append_cons _ _ _ _ (by decide) (by decide)
  rw [h1, h2]
  simp only [show (match ' ' :: '"' :: (R ++ ['"']) with
      | '$' :: r => ((['P', 'R', 'I', 'N', 'T'] ++ ['$'] : List Char), r)
      | x => ((['P', 'R', 'I', 'N', 'T'] : List Char), ' ' :: '"' :: (R ++ ['"']))) =
      ((['P', 'R', 'I', 'N', 'T'] : List Char), ' ' :: '"' :: (R ++ ['"'])) from rfl]
  simp only [show (match ' ' :: '"' :: (R ++ ['"']) with
      | '(' :: r => ((['P', 'R', 'I', 'N', 'T'] ++ ['('] : List Char), r)
      | x => ((['P', 'R', 'I', 'N', 'T'] : List Char), ' ' :: '"' :: (R ++ ['"']))) =
      ((['P', 'R', 'I', 'N', 'T'] : List Char), ' ' :: '"' :: (R ++ ['"'])) from rfl]
  have h3 : List.dropWhile Char.isWhitespace (' ' :: '"' :: (R ++ ['"'])) =
      '"' :: (R ++ ['"']) := by
    rw [List.dropWhile_cons_of_pos (by decide), List.dropWhile_cons_of_neg (by decide)]
  have h4 : getByName ['P', 'R', 'I', 'N', 'T'] = some 0xC6 := by decide
  simp only [h3, h4]
  rw [if_neg (by decide)]
  rfl

theorem tokeniseOne_string (R : List Char) (hRq : ∀ x ∈ R, x ≠ '"') :
    tokeniseOne progInitStore ('"' :: (R ++ ['"'])) =
      some (progInitStore, 0x80 :: R.length :: R.map Char.toNat, []) := by
  simp only [tokeniseOne]
  rw [if_neg (by decide), if_neg (by decide), if_pos (by decide)]
  have h1 : List.takeWhile (fun x => decide (x ≠ '"')) (R ++ ['"']) = R := by
    have e2 : R ++ ['"'] = R ++ '"' :: [] := rfl
    rw [e2]
    exact takeWhile_append_cons _ _ _ _
      (fun x hx => by simpa using hRq x hx) (by decide)
  have h2 : List.dropWhile (fun x => decide (x ≠ '"')) (R ++ ['"']) = ['"'] := by
    have e2 : R ++ ['"'] = R ++ '"' :: [] := rfl
    rw [e2]
    exact dropWhile_append_cons _ _ _ _
      (fun x hx => by simpa using hRq x hx) (by decide)
  simp only [h1, h2]
  have h3 : getTokenID ['!', '!', 's', 't', 'r'] = 0x80 := by decide
  simp [h3]

theorem tokeniseLoop_step (f : Nat) (ist : IdentifierStore) (s : List Char)
    (acc : List Nat) (ist2 : IdentifierStore) (code : List Nat) (rest : List Char)
    (hne : ¬(s = [] ∨ s.take 2 = ['/', '/']))
    (hone : tokeniseOne ist s = some (ist2, code, rest)) :
    tokeniseLoop (f + 1) ist s acc =
      tokeniseLoop f ist2 (stripChars rest) (acc ++ code) := by
  simp only [tokeniseLoop, hone, if_neg hne]

theorem tokeniseLoop_stop (f : Nat) (ist : IdentifierStore) (s : List Char)
    (acc : List Nat) (h : s = [] ∨ s.take 2 = ['/', '/']) :
    tokeniseLoop (f + 1) ist s acc = some (ist, acc) := by
  simp only [tokeniseLoop, if_pos h]

theorem tokenise_print_string (R : List Char) (hRq : ∀ x ∈ R, x ≠ '"') :
    tokenise progInitStore ("PRINT \"".toList ++ R ++ ['"']) =
      some (progInitStore, [0xC6, 0x80, R.length] ++ R.map Char.toNat) := by
  unfold tokenise
  have hs : stripChars ("PRINT \"".toList ++ R ++ ['"']) =
      "PRINT \"".toList ++ R ++ ['"'] := by
    apply stripChars_eq_self
    · intro b hb
      have hh : ("PRINT \"".toList ++ R ++ ['"']).head? = some 'P' := rfl
      rw [hh] at hb
      have hb2 : 'P' = b := by injection hb
      exact hb2 ▸ (by decide : ('P' : Char).isWhitespace = false)
    · intro b hb
      have hh : ("PRINT \"".toList ++ R ++ ['"']).getLast? = some '"' :=
        List.getLast?_concat _
      rw [hh] at hb
      have hb2 : '"' = b := by injection hb
      exact hb2 ▸ (by decide : ('"' : Char).isWhitespace = false)
  rw [hs]
  have hlen : ("PRINT \"".toList ++ R ++ ['"']).length + 1 = (R.length + 8) + 1 := by
    simp [List.length_append]
  rw [hlen, tokeniseLoop_step _ _ _ _ _ _ _ (by simp) (tokeniseOne_print R)]
  have hs2 : stripChars ('"' :: (R ++ ['"'])) = '"' :: (R ++ ['"']) := by
    apply stripChars_eq_self
    · intro b hb
      have hb2 : '"' = b := by injection hb
      exact hb2 ▸ (by decide : ('"' : Char).isWhitespace = false)
    · intro b hb
      have hh : ('"' :: (R ++ ['"'])).getLast? = some '"' := by
        rw [show ('"' :: (R ++ ['"'])) = ('"' :: R) ++ ['"'] from by simp]
        exact List.getLast?_concat _
      rw [hh] at hb
      have hb2 : '"' = b := by injection hb
      exact hb2 ▸ (by decide : ('"' : Char).isWhitespace = false)
  rw [hs2, show R.length + 8 = (R.length + 7) + 1 from rfl,
    tokeniseLoop_step _ _ _ _ _ _ _ (by simp) (tokeniseOne_string R hRq),
    show R.length + 7 = (R.length + 6) + 1 from rfl]
  rw [show stripChars [] = [] from rfl,
    tokeniseLoop_stop _ _ _ _ (Or.inl rfl)]
  simp

theorem isPrefixOf_append_self (l r : List Char) : l.isPrefixOf (l ++ r) = true := by
  induction l with
  | nil => simp
  | cons a t ih => simpa using ih

theorem getLast?_of_tail (A R : List Char) (b : Char) (hb : R.getLast? = some b) :
    (A ++ R).getLast? = some b := by
  rw [List.getLast?_append, hb, Option.or_some]

/-- Program.command on a well-formed define directive: the name-to-text pair
is recorded. -/
theorem command_define (p : ProgState) (n0 : Char) (ntail R : List Char)
    (b : Char)
    (h0 : n0.isAlpha = true) (ht : ∀ x ∈ ntail, identClassChar x = true)
    (hbR : R.getLast? = some b)
    (hRh : ∀ b2, R.head? = some b2 → Char.isWhitespace b2 = false)
    (hRl : ∀ b2, R.getLast? = some b2 → Char.isWhitespace b2 = false) :
    command p ("define ".toList ++ (n0 :: ntail) ++ ' ' :: R) =
      some { p with identifiers := (n0 :: ntail, R) :: p.identifiers } := by
  have e2 : ("define ".toList ++ (n0 :: ntail) ++ ' ' :: R) =
      "define".toList ++ (' ' :: ((n0 :: ntail) ++ ' ' :: R)) := by
    simp
  have hnws : Char.isWhitespace b = false := hRl b hbR
  unfold command
  rw [if_pos (by rw [e2]; exact isPrefixOf_append_self _ _)]
  rw [e2, List.drop_left' (by rfl : ("define".toList).length = 6)]
  have hhead : ∀ b2, ((n0 :: ntail) ++ ' ' :: R).head? = some b2 →
      Char.isWhitespace b2 = false := by
    intro b2 hb2
    have hb3 : n0 = b2 := by injection hb2
    rw [← hb3]
    exact alpha_not_ws n0 h0
  have hrev : ∀ b2, ((n0 :: ntail) ++ ' ' :: R).reverse.head? = some b2 →
      Char.isWhitespace b2 = false := by
    intro b2 hb2
    rw [List.head?_reverse] at hb2
    rw [getLast?_of_tail (n0 :: ntail) (' ' :: R) b
      (by rw [List.getLast?_cons, hbR]; rfl)] at hb2
    have hb3 : b = b2 := by injection hb2
    rw [← hb3]
    exact hnws
  have h5 : stripChars (' ' :: ((n0 :: ntail) ++ ' ' :: R)) =
      (n0 :: ntail) ++ ' ' :: R := by
    unfold stripChars
    rw [List.dropWhile_cons_of_pos (by decide : Char.isWhitespace ' ' = true),
      dropWhile_eq_self_of_head ((n0 :: ntail) ++ ' ' :: R) hhead,
      dropWhile_eq_self_of_head ((n0 :: ntail) ++ ' ' :: R).reverse hrev,
      List.reverse_reverse]
  rw [h5]
  have h6 : ((n0 :: ntail) ++ ' ' :: R).findIdx? (fun x => x == ' ') =
      some (n0 :: ntail).length := by
    apply findIdx_append_cons
    · intro x hx
      rcases List.mem_cons.mp hx with rfl | hx2
      · exact beq_eq_false_iff_ne.mpr (alpha_ne_space h0)
      · exact beq_eq_false_iff_ne.mpr (identClass_ne_space (ht x hx2))
    · rfl
  have e3 : ((n0 :: ntail) ++ ' ' :: R) = ((n0 :: ntail) ++ [' ']) ++ R := by
    simp
  have h7 : List.take (n0 :: ntail).length ((n0 :: ntail) ++ ' ' :: R) =
      n0 :: ntail := List.take_left _ _
  have h8 : List.drop ((n0 :: ntail).length + 1) ((n0 :: ntail) ++ ' ' :: R) = R := by
    rw [e3]
    exact List.drop_left' (by simp)
  have h9 : stripChars R = R := stripChars_eq_self R hRh hRl
  simp only [h6, h7, h8, h9]

/-- One addFile iteration on a stripped hash line dispatches to command. -/
theorem addFileLine_hash (p : ProgState) (line cr : List Char)
    (h : stripChars line = '#' :: cr) : addFileLine p line = command p cr := by
  unfold addFileLine
  rw [h]
  rfl

/-- One addFile iteration on a non-hash line whose substituted text starts
with a non-digit reaches addLine without an explicit number. -/
theorem addFileLine_plain (p : ProgState) (line : List Char) (c : Char)
    (t : List Char) (c2 : Char) (t2 : List Char)
    (h : stripChars line = c :: t) (hc : c ≠ '#')
    (hs2 : processIdentifiers p.identifiers (stripChars (c :: t)) = c2 :: t2)
    (hd2 : c2.isDigit = false) :
    addFileLine p line = addLine p none (c2 :: t2) := by
  unfold addFileLine
  rw [h]
  split
  · rename_i cr hcr
    exact absurd (List.cons.inj hcr).1 hc
  · simp only [hs2]
    rw [if_neg (by rw [hd2]; exact Bool.false_ne_true)]

/-- Evaluation of Program.addLine on non-blank text outside library mode. -/
theorem addLine_eval (p : ProgState) (s2 : List Char) (st2 : IdentifierStore)
    (tcode : List Nat)
    (hne : ¬ stripChars s2 = [])
    (htok : tokenise p.store s2 = some (st2, tcode))
    (hlib : p.libraryMode = false) :
    addLine p none s2 = some { p with
      code := p.code ++ ((tcode.length + 4) :: (p.nextLine &&& 0xFF) ::
        (p.nextLine >>> 8) :: (tcode ++ [getTokenID ("!!end".toList)])),
      store := st2,
      nextLine := p.nextLine + p.lineStep } := by
  unfold addLine
  rw [if_neg hne]
  simp only [hlib, htok, Bool.false_eq_true, if_false, List.set_cons_zero]
  simp [List.length_append]

theorem stripChars_print_string (R : List Char) :
    stripChars ("PRINT \"".toList ++ R ++ ['"']) =
      "PRINT \"".toList ++ R ++ ['"'] := by
  apply stripChars_eq_self
  · intro b hb
    have hh : ("PRINT \"".toList ++ R ++ ['"']).head? = some 'P' := rfl
    rw [hh] at hb
    have hb2 : 'P' = b := by injection hb
    exact hb2 ▸ (by decide : ('P' : Char).isWhitespace = false)
  · intro b hb
    have hh : ("PRINT \"".toList ++ R ++ ['"']).getLast? = some '"' :=
      List.getLast?_concat _
    rw [hh] at hb
    have hb2 : '"' = b := by injection hb
    exact hb2 ▸ (by decide : ('"' : Char).isWhitespace = false)

/-- End-to-end wire consequence of the define substitution: for every
identifier-shaped name N (letter head, identifier-class tail, distinct from
PRINT) and every replacement text R (non-empty, no edge whitespace, no
quote), the two-line program [#define N R, PRINT "N"] - with N occurring
only inside the quoted string - builds exactly one line record whose !!STR
payload is R: the image code is
[lineLen, 100, 0, id(PRINT), id(!!STR), len(R), bytes of R, id(!!END)]. -/
theorem addFile_define_print_schema
    (n0 : Char) (ntail R : List Char) (b : Char)
    (h0 : n0.isAlpha = true)
    (ht : ∀ x ∈ ntail, identClassChar x = true)
    (hNP : n0 :: ntail ≠ "PRINT".toList)
    (hbR : R.getLast? = some b)
    (hRh : ∀ b2, R.head? = some b2 → Char.isWhitespace b2 = false)
    (hRl : ∀ b2, R.getLast? = some b2 → Char.isWhitespace b2 = false)
    (hRq : ∀ x ∈ R, x ≠ '"') :
    addFileLines
      ["#define ".toList ++ (n0 :: ntail) ++ ' ' :: R,
        "PRINT \"".toList ++ (n0 :: ntail) ++ ['"']]
      Program.init =
      some (ProgState.mk 110 10
        ((R.length + 7) :: 100 :: 0 :: 0xC6 :: 0x80 :: R.length ::
          (R.map Char.toNat ++ [0xC0]))
        progInitStore [(n0 :: ntail, R)] false) := by
  have hstripDef : stripChars ("#define ".toList ++ (n0 :: ntail) ++ ' ' :: R) =
      '#' :: ("define ".toList ++ (n0 :: ntail) ++ ' ' :: R) := by
    have e2 : ("#define ".toList ++ (n0 :: ntail) ++ ' ' :: R) =
        (('#' :: ("define ".toList ++ (n0 :: ntail))) ++ [' ']) ++ R := by
      simp
    have hlast : ("#define ".toList ++ (n0 :: ntail) ++ ' ' :: R).getLast? =
        some b := by
      rw [e2]
      exact getLast?_of_tail _ _ _ hbR
    have hs := stripChars_eq_self ("#define ".toList ++ (n0 :: ntail) ++ ' ' :: R)
      (by
        intro b2 hb2
        have hh : ("#define ".toList ++ (n0 :: ntail) ++ ' ' :: R).head? =
            some '#' := rfl
        rw [hh] at hb2
        have hb3 : '#' = b2 := by injection hb2
        exact hb3 ▸ (by decide : ('#' : Char).isWhitespace = false))
      (by
        intro b2 hb2
        rw [hlast] at hb2
        have hb3 : b = b2 := by injection hb2
        exact hb3 ▸ hRl b hbR)
    exact hs
  have hA : addFileLine Program.init
      ("#define ".toList ++ (n0 :: ntail) ++ ' ' :: R) =
      some (ProgState.mk 100 10 [] progInitStore [(n0 :: ntail, R)] false) := by
    rw [addFileLine_hash _ _ _ hstripDef,
      command_define Program.init n0 ntail R b h0 ht hbR hRh hRl]
    rfl
  have hsub : processIdentifiers [(n0 :: ntail, R)]
      (stripChars ("PRINT \"".toList ++ (n0 :: ntail) ++ ['"'])) =
      "PRINT \"".toList ++ R ++ ['"'] := by
    rw [stripChars_print_string (n0 :: ntail)]
    exact processIdentifiers_print_line n0 ntail R h0 ht hNP
  have hB := addFileLine_plain
    (ProgState.mk 100 10 [] progInitStore [(n0 :: ntail, R)] false)
    ("PRINT \"".toList ++ (n0 :: ntail) ++ ['"'])
    'P' ("RINT \"".toList ++ (n0 :: ntail) ++ ['"'])
    'P' ("RINT \"".toList ++ R ++ ['"'])
    (stripChars_print_string (n0 :: ntail)) (by decide) hsub (by decide)
  have hAddLine := addLine_eval
    (ProgState.mk 100 10 [] progInitStore [(n0 :: ntail, R)] false)
    ('P' :: ("RINT \"".toList ++ R ++ ['"']))
    progInitStore ([0xC6, 0x80, R.length] ++ R.map Char.toNat)
    (by rw [show stripChars ('P' :: ("RINT \"".toList ++ R ++ ['"'])) =
        stripChars ("PRINT \"".toList ++ R ++ ['"']) from rfl,
      stripChars_print_string R]; simp)
    (tokenise_print_string R hRq)
    rfl
  show (addFileLine Program.init
      ("#define ".toList ++ (n0 :: ntail) ++ ' ' :: R)).bind
      (addFileLines ["PRINT \"".toList ++ (n0 :: ntail) ++ ['"']]) = _
  rw [hA]
  simp only [Option.some_bind]
  show (addFileLine (ProgState.mk 100 10 [] progInitStore [(n0 :: ntail, R)] false)
      ("PRINT \"".toList ++ (n0 :: ntail) ++ ['"'])).bind (addFileLines []) = _
  rw [hB, hAddLine]
  simp only [Option.some_bind]
  have hend : getTokenID ("!!end".toList) = 0xC0 := by decide
  have hend2 : getTokenID ['!', '!', 'e', 'n', 'd'] = 0xC0 := by decide
  have h100a : (100 : Nat) &&& 0xFF = 100 := by decide
  have h100b : (100 : Nat) >>> 8 = 0 := by decide
  simp [hend, hend2, h100a, h100b, List.length_append, List.length_map]
  rw [show R.length + 1 + 1 + 1 + 4 = R.length + 7 from by omega]
  rfl

/-- Partition property of the identifier split: the chunks of every raw
line flatten back to the line, so the substitution examines every character
of the line - characters inside quoted string literals included; nothing
is skipped or left over. -/
theorem rsplit_flatten (s : List Char) : (rsplit s).flatten = s := by
  match s with
  | [] =>
    rw [rsplit_nil]
    rfl
  | c :: t =>
    by_cases hc : c.isAlpha
    · rw [rsplit_alpha c t hc]
      simp only [List.flatten_cons, List.nil_append, List.cons_append]
      rw [rsplit_flatten (t.dropWhile identClassChar)]
      simp [List.takeWhile_append_dropWhile]
    · rw [rsplit_nonalpha c t (by simpa using hc)]
      have h2 := rsplit_flatten t
      rcases hrs : rsplit t with _ | ⟨sep, rest⟩
      · rw [hrs] at h2
        simp only [List.flatten_nil] at h2
        simp [← h2]
      · rw [hrs] at h2
        simp only [List.flatten_cons] at h2 ⊢
        rw [← h2]
        simp
  termination_by s.length
  decreasing_by
    · simp only [List.length_cons]
      have hd := (List.dropWhile_sublist (l := t) identClassChar).length_le
      omega
    · simp

/-- The most recent define of a name wins the lookup. -/
theorem lookupKey_cons_self (m : List (List Char × List Char)) (N R : List Char) :
    lookupKey ((N, R) :: m) N = some R := by
  simp [lookupKey, List.find?]

/-- Pipeline order on every non-directive line: addFileLine substitutes over
the whole stripped line first and only then parses a leading line number and
hands the text to addLine (which tokenises it). -/
theorem addFileLine_subst (p : ProgState) (line : List Char) (c : Char)
    (t : List Char) (h : stripChars line = c :: t) (hc : c ≠ '#') :
    addFileLine p line =
      (let s2 := processIdentifiers p.identifiers (stripChars (c :: t))
       match s2 with
       | [] => some p
       | c2 :: _ =>
           if c2.isDigit then
             addLine p (some (digitsVal (s2.takeWhile Char.isDigit)))
               (s2.dropWhile Char.isDigit)
           else addLine p none s2) := by
  unfold addFileLine
  rw [h]
  split
  · rename_i cr hcr
    exact absurd (List.cons.inj hcr).1 hc
  · rfl

/-- C10: define substitution is applied to the entire raw source line before
tokenisation, including characters inside double-quoted string literals.
In order: (1) the identifier split behind the substitution partitions every
raw line - its chunks flatten back to the line, so every character, quoted
or not, is examined; (2) a well-formed define directive records the pair
(N, R) in every program state, and the recorded name looks up to R;
(3) in every program state whose dictionary maps N to R, every chunk of
every line equal to N - that is, every whole-word occurrence of N, inside
quoted strings included - is replaced by R in the substituted chunk list;
(4) the substituted line is exactly the flatten of that chunk list; (5) for
every state and every non-directive line, addFileLine hands exactly the
substituted line (with a leading line number split off) to addLine, whose
tokenisation produces the emitted bytes; (6) consequently, for every
identifier-shaped N other than PRINT and every quote-free replacement R,
the program [#define N R, PRINT "N"] - N occurring only inside the quoted
string - emits the !!STR payload R rather than N. -/
theorem c10_define_substitution_universal :
    (∀ s : List Char, (rsplit s).flatten = s) ∧
    (∀ (p : ProgState) (n0 : Char) (ntail R : List Char) (b : Char),
      n0.isAlpha = true → (∀ x ∈ ntail, identClassChar x = true) →
      R.getLast? = some b →
      (∀ b2, R.head? = some b2 → Char.isWhitespace b2 = false) →
      (∀ b2, R.getLast? = some b2 → Char.isWhitespace b2 = false) →
      command p ("define ".toList ++ (n0 :: ntail) ++ ' ' :: R) =
          some { p with identifiers := (n0 :: ntail, R) :: p.identifiers } ∧
        lookupKey ((n0 :: ntail, R) :: p.identifiers) (n0 :: ntail) = some R) ∧
    (∀ (m : List (List Char × List Char)) (N R line : List Char) (i : Nat),
      lookupKey m N = some R → (rsplit line)[i]? = some N →
      ((rsplit line).map (fun ch => (lookupKey m ch).getD ch))[i]? = some R) ∧
    (∀ (m : List (List Char × List Char)) (line : List Char),
      processIdentifiers m line =
        ((rsplit line).map (fun ch => (lookupKey m ch).getD ch)).flatten) ∧
    (∀ (p : ProgState) (line : List Char) (c : Char) (t : List Char),
      stripChars line = c :: t → c ≠ '#' →
      addFileLine p line =
        (let s2 := processIdentifiers p.identifiers (stripChars (c :: t))
         match s2 with
         | [] => some p
         | c2 :: _ =>
             if c2.isDigit then
               addLine p (some (digitsVal (s2.takeWhile Char.isDigit)))
                 (s2.dropWhile Char.isDigit)
             else addLine p none s2)) ∧
    (∀ (n0 : Char) (ntail R : List Char) (b : Char),
      n0.isAlpha = true → (∀ x ∈ ntail, identClassChar x = true) →
      n0 :: ntail ≠ "PRINT".toList → R.getLast? = some b →
      (∀ b2, R.head? = some b2 → Char.isWhitespace b2 = false) →
      (∀ b2, R.getLast? = some b2 → Char.isWhitespace b2 = false) →
      (∀ x ∈ R, x ≠ '"') →
      addFileLines
        ["#define ".toList ++ (n0 :: ntail) ++ ' ' :: R,
          "PRINT \"".toList ++ (n0 :: ntail) ++ ['"']]
        Program.init =
        some (ProgState.mk 110 10
          ((R.length + 7) :: 100 :: 0 :: 0xC6 :: 0x80 :: R.length ::
            (R.map Char.toNat ++ [0xC0]))
          progInitStore [(n0 :: ntail, R)] false)) := by
  refine ⟨rsplit_flatten, ?_, ?_, ?_, addFileLine_subst, addFile_define_print_schema⟩
  · intro p n0 ntail R b h0 ht hbR hRh hRl
    exact ⟨command_define p n0 ntail R b h0 ht hbR hRh hRl,
      lookupKey_cons_self p.identifiers (n0 :: ntail) R⟩
  · intro m N R line i hm hi
    rw [List.getElem?_map, hi]
    simp [hm]
  · intro m line
    rfl

/-- Witness for C10: the split partitions a concrete line; a concrete
define directive is recorded; in the line PRINT "N" the chunk N - inside
the quoted string - is substituted by R; the pipeline equation holds at a
concrete state and line; and the concrete program [#define N R, PRINT "N"]
emits the payload R. -/
theorem c10_define_substitution_universal_witness :
    ((rsplit ("A".toList)).flatten = "A".toList) ∧
    (command Program.init ("define ".toList ++ ['N'] ++ ' ' :: ['R']) =
        some { Program.init with
          identifiers := (['N'], ['R']) :: Program.init.identifiers } ∧
      lookupKey ((['N'], ['R']) :: Program.init.identifiers) ['N'] = some ['R']) ∧
    ((rsplit ("PRINT \"N\"".toList))[3]? = some ['N']) ∧
    (((rsplit ("PRINT \"N\"".toList)).map
        (fun ch => (lookupKey [(['N'], ['R'])] ch).getD ch))[3]? = some ['R']) ∧
    (addFileLine Program.init ("A".toList) =
      (let s2 := processIdentifiers Program.init.identifiers (stripChars ['A'])
       match s2 with
       | [] => some Program.init
       | c2 :: _ =>
           if c2.isDigit then
             addLine Program.init (some (digitsVal (s2.takeWhile Char.isDigit)))
               (s2.dropWhile Char.isDigit)
           else addLine Program.init none s2)) ∧
    (addFileLines
        ["#define ".toList ++ ['N'] ++ ' ' :: ['R'],
          "PRINT \"".toList ++ ['N'] ++ ['"']]
        Program.init =
        some (ProgState.mk 110 10
          (((['R'] : List Char).length + 7) :: 100 :: 0 :: 0xC6 :: 0x80 ::
            (['R'] : List Char).length ::
            ((['R'] : List Char).map Char.toNat ++ [0xC0]))
          progInitStore [(['N'], ['R'])] false)) := by
  have hchunk : (rsplit ("PRINT \"N\"".toList))[3]? = some ['N'] := by
    rw [show ("PRINT \"N\"".toList) = "PRINT \"".toList ++ ['N'] ++ ['"'] from rfl,
      rsplit_print_line 'N' [] (by decide) (by decide)]
    rfl
  refine ⟨c10_define_substitution_universal.1 ("A".toList),
    c10_define_substitution_universal.2.1 Program.init 'N' [] ['R'] 'R'
      (by decide) (by decide) (by decide) (by decide) (by decide),
    hchunk,
    c10_define_substitution_universal.2.2.1 [(['N'], ['R'])] ['N'] ['R']
      ("PRINT \"N\"".toList) 3 (by decide) hchunk,
    c10_define_substitution_universal.2.2.2.2.1 Program.init ("A".toList) 'A' []
      (by decide) (by decide),
    c10_define_substitution_universal.2.2.2.2.2 'N' [] ['R'] 'R' (by decide)
      (by decide) (by decide) (by decide) (by decide) (by decide) (by decide)⟩

end Basictool
